import Mathlib

/-!
# Verification of the Twinny completion-feedback core (src/src/index.ts)

Shallow embedding of the context-relevance and completion-feedback engine
of the extension's `activate` function:

* the Completion Deduplication Cache (`recentCompletionIdsSet` /
  `recentCompletionIdsQueue` / `MAX_RECENT_COMPLETION_IDS`, lines 85-87 and
  398-406 of src/src/index.ts);
* the `onDidChangeTextDocument` handler (lines 332-434), with fault
  injection for the external calls that can throw;
* the `onDidCloseTextDocument` / `onDidOpenTextDocument` handlers
  (lines 322-331) over a spec-modelled `FileInteractionCache`;
* the `addFileToContext` / `addSelectionToContext` commands
  (lines 276-321) over a spec-modelled context-item registry.

JavaScript strings are `String`, truthiness of a string `s` is `s ≠ ""`,
`undefined`-able values are `Option`, and calls to external collaborators
(`recordCompletionInteraction`, `incrementStrokes`,
`setAcceptedLastCompletion`) are collected as explicit output lists so that
theorems can count them.  The duck-type check
`typeof recordCompletionInteraction === "function"` (line 395) is modelled
as true: the completion provider exposes that method (spec section 6).
-/

/-- The first content change of a `TextDocumentChangeEvent`
(`e.contentChanges[0]`): inserted text and the start of the replaced
range. -/
structure ContentChange where
  text : String
  startLine : Nat
  startChar : Nat
deriving DecidableEq, Repr

/-- A document-change event as seen by the handler: the first content
change (absent when `contentChanges` is empty, line 333-334) and
`e.document.uri.fsPath`. -/
structure ChangeEvent where
  contentChange : Option ContentChange
  docPath : String
deriving DecidableEq, Repr

/-- The completion-provider state read by the handler:
`completionProvider.lastCompletionText`,
`(completionProvider as any).lastCompletionId` (line 371, may be
`undefined`), and `(completionProvider as any)._document?.fileName`
(line 353, may be `undefined`). -/
structure ProviderView where
  lastCompletionText : String
  lastCompletionId : Option String
  documentFileName : Option String
deriving DecidableEq, Repr

/-- The argument triple of one call to
`recordCompletionInteraction(accepted, userText, completionId)`
(lines 396 and 417). -/
structure FeedbackRecord where
  accepted : Bool
  userText : Option String
  completionId : String
deriving DecidableEq, Repr

/-- Fault injection for the operations the source wraps in `try`/`catch`:
`pathCheckThrows` makes the path-inspection block (lines 351-360) throw
into the catch at line 361; `recordThrows` makes the first
`recordCompletionInteraction` call (line 396) throw into the catch at
line 409; `fallbackThrows` makes the fallback call (line 417) throw into
the inner catch at line 419. -/
structure Faults where
  pathCheckThrows : Bool
  recordThrows : Bool
  fallbackThrows : Bool
deriving DecidableEq, Repr

/-- The observable effects of one run of the change handler: the
`recordCompletionInteraction` calls in order, the
`fileInteractionCache.incrementStrokes` calls in order, and the argument
of the `setAcceptedLastCompletion` call (`none` when the handler returned
before line 340). -/
structure HandlerOutput where
  records : List FeedbackRecord
  strokes : List (Nat × Nat)
  flagSet : Option Bool
deriving DecidableEq, Repr

/-- Modelled from the spec: `getLineBreakCount` (imported from
`./webview/utils`, which is not under src/) counts the line breaks of a
string; spec section 3 derives `isMultiline` as "line-break count > 1". -/
def getLineBreakCount (s : String) : Nat :=
  s.data.countP fun c => c == '\n'

/-- The completion deduplication cache: `recentCompletionIdsSet` (the
`Set<string>`, modelled as a duplicate-free list) and
`recentCompletionIdsQueue` (lines 85-86). -/
structure DedupCache where
  set : List String
  queue : List String
deriving DecidableEq, Repr

/-- `MAX_RECENT_COMPLETION_IDS` (line 87). -/
def MAX_RECENT_COMPLETION_IDS : Nat := 10

/-- The initial state of both containers (lines 85-86). -/
def DedupCache.empty : DedupCache := ⟨[], []⟩

/-- Membership in `recentCompletionIdsSet` (`.has`, lines 384 and 398). -/
def DedupCache.containsId (c : DedupCache) (id : String) : Bool :=
  c.set.contains id

/-- The insertion block of lines 398-406: if the id is not in the set,
add it to the set, push it onto the queue, and if the queue length now
exceeds `MAX_RECENT_COMPLETION_IDS`, shift the oldest id off the queue
and delete it from the set. -/
def DedupCache.insertId (c : DedupCache) (id : String) : DedupCache :=
  if c.containsId id then c
  else
    let set1 := c.set ++ [id]
    let queue1 := c.queue ++ [id]
    if MAX_RECENT_COMPLETION_IDS < queue1.length then
      match queue1 with
      | [] => ⟨set1, queue1⟩
      | oldest :: rest => ⟨set1.erase oldest, rest⟩
    else ⟨set1, queue1⟩

/-- Folding `insertId` over a list of ids. -/
def DedupCache.insertAll (c : DedupCache) (ids : List String) : DedupCache :=
  ids.foldl DedupCache.insertId c

/-- The `workspace.onDidChangeTextDocument` handler, lines 332-434 of
src/src/index.ts.  Returns the updated dedup cache together with the
calls made to the collaborators; the `Except` layer records whether an
exception escaped the handler (the source catches everything, so every
branch of this embedding is `.ok`). -/
def onDidChangeTextDocument (prov : ProviderView) (cache : DedupCache)
    (ev : ChangeEvent) (f : Faults) :
    Except String (DedupCache × HandlerOutput) :=
  match ev.contentChange with
  | none => .ok (cache, ⟨[], [], none⟩)
  | some changes =>
    let lastCompletion := prov.lastCompletionText
    let isMulti : Bool := decide (getLineBreakCount lastCompletion > 1)
    let flag : Bool :=
      !(changes.text == "") && !(lastCompletion == "") &&
        (changes.text == lastCompletion) && isMulti
    let stroke : Nat × Nat := (changes.startLine, changes.startChar)
    if f.pathCheckThrows then
      .ok (cache, ⟨[], [stroke], some flag⟩)
    else
      let changedPath := ev.docPath
      let completionDocPath := prov.documentFileName.getD ""
      if changedPath == "" || completionDocPath == "" ||
          changedPath != completionDocPath then
        .ok (cache, ⟨[], [stroke], some flag⟩)
      else
        match prov.lastCompletionId with
        | none => .ok (cache, ⟨[], [stroke], some flag⟩)
        | some completionId =>
          if cache.containsId completionId then
            .ok (cache, ⟨[], [stroke], some flag⟩)
          else
            let accepted : Bool :=
              !(changes.text == "") && !(lastCompletion == "") &&
                (changes.text == lastCompletion)
            let userText : Option String :=
              if accepted then none else some changes.text
            let r : FeedbackRecord := ⟨accepted, userText, completionId⟩
            if f.recordThrows then
              .ok (cache, ⟨[r, r], [stroke], some flag⟩)
            else
              .ok (cache.insertId completionId, ⟨[r], [stroke], some flag⟩)

/-- The records handed to `recordCompletionInteraction` by one event. -/
def handlerRecords (prov : ProviderView) (cache : DedupCache)
    (ev : ChangeEvent) (f : Faults) : List FeedbackRecord :=
  match onDidChangeTextDocument prov cache ev f with
  | .ok res => res.2.records
  | .error _ => []

/-- One delivered event together with the provider state and fault
pattern at delivery time. -/
structure Step where
  prov : ProviderView
  ev : ChangeEvent
  faults : Faults
deriving DecidableEq, Repr

/-- Run one step, threading the dedup cache and accumulating the records
handed to `recordCompletionInteraction`. -/
def runStep (acc : DedupCache × List FeedbackRecord) (s : Step) :
    DedupCache × List FeedbackRecord :=
  match onDidChangeTextDocument s.prov acc.1 s.ev s.faults with
  | .ok res => (res.1, acc.2 ++ res.2.records)
  | .error _ => acc

/-- Run a sequence of change events from a given cache state. -/
def runTrace (cache : DedupCache) (steps : List Step) :
    DedupCache × List FeedbackRecord :=
  steps.foldl runStep (cache, [])

/-- How many of the handed records carry the given completion id. -/
def recordsFor (id : String) (records : List FeedbackRecord) : Nat :=
  records.countP fun r => r.completionId == id

/-- A step qualifies for id `X` when the handler reaches the feedback
classification for `X`: a content change is present, the path check does
not throw, the changed path is non-empty and equals the completion
document's path, and the provider's last completion id is `X`. -/
def qualifies (s : Step) (X : String) : Prop :=
  s.faults.pathCheckThrows = false ∧
  s.ev.contentChange.isSome = true ∧
  s.ev.docPath ≠ "" ∧
  s.prov.documentFileName.getD "" = s.ev.docPath ∧
  s.prov.lastCompletionId = some X

instance (s : Step) (X : String) : Decidable (qualifies s X) := by
  unfold qualifies; infer_instance

/-- The per-path counters of the Interaction Store.  Modelled from the
spec: the `FileInteractionCache` entry type (src/extension/file-interaction.ts
is not under src/); spec section 3 `InteractionSession` lists `visits`,
`strokes` and `lastStrokePosition (line, character)` per path. -/
structure InteractionEntry where
  visits : Nat
  strokes : Nat
  lastStroke : Option (Nat × Nat)
deriving DecidableEq, Repr

/-- A fresh entry before any visit or stroke is counted. -/
def InteractionEntry.init : InteractionEntry := ⟨0, 0, none⟩

/-- Modelled from the spec: the `FileInteractionCache` component
(src/extension/file-interaction.ts is not under src/).  Spec section 4.3:
per-path accumulated counters plus at most one open session at a time. -/
structure FileInteractionCache where
  entries : List (String × InteractionEntry)
  current : Option String
deriving DecidableEq, Repr

/-- The store before any session. -/
def FileInteractionCache.empty : FileInteractionCache := ⟨[], none⟩

/-- Apply `f` to the entry stored for `p`, leaving other paths alone. -/
def FileInteractionCache.updateEntry (st : FileInteractionCache)
    (p : String) (f : InteractionEntry → InteractionEntry) :
    FileInteractionCache :=
  { st with
    entries := st.entries.map fun kv =>
      if kv.1 == p then (kv.1, f kv.2) else kv }

/-- Modelled from the spec: `startSession(path)` opens a session for
`path`; accumulated counters are keyed by path and persist, so an entry
is created only when the path has none yet (spec section 4.3). -/
def FileInteractionCache.startSession (st : FileInteractionCache)
    (p : String) : FileInteractionCache :=
  { entries :=
      if (st.entries.lookup p).isSome then st.entries
      else st.entries ++ [(p, InteractionEntry.init)]
    current := some p }

/-- Modelled from the spec: `endSession()` closes whatever session is
open; a no-op when none is open (spec section 4.3). -/
def FileInteractionCache.endSession (st : FileInteractionCache) :
    FileInteractionCache :=
  { st with current := none }

/-- Modelled from the spec: `incrementVisits()` increments the visit
counter of the currently open session's path (spec section 4.3). -/
def FileInteractionCache.incrementVisits (st : FileInteractionCache) :
    FileInteractionCache :=
  match st.current with
  | none => st
  | some p => st.updateEntry p fun e => { e with visits := e.visits + 1 }

/-- Modelled from the spec: `incrementStrokes(line, character)`
increments the stroke counter of the currently open session's path and
records the last stroke position (spec section 4.3). -/
def FileInteractionCache.incrementStrokes (st : FileInteractionCache)
    (line char : Nat) : FileInteractionCache :=
  match st.current with
  | none => st
  | some p => st.updateEntry p fun e =>
      { e with strokes := e.strokes + 1, lastStroke := some (line, char) }

/-- Modelled from the spec: `delete(path)` removes all accumulated state
for `path` (spec section 4.3). -/
def FileInteractionCache.delete (st : FileInteractionCache) (p : String) :
    FileInteractionCache :=
  { st with entries := st.entries.filter fun kv => !(kv.1 == p) }

/-- The accumulated visit counter stored for a path (0 when the path has
no entry). -/
def FileInteractionCache.getVisits (st : FileInteractionCache)
    (p : String) : Nat :=
  ((st.entries.lookup p).getD InteractionEntry.init).visits

/-- The accumulated stroke counter stored for a path (0 when the path
has no entry). -/
def FileInteractionCache.getStrokes (st : FileInteractionCache)
    (p : String) : Nat :=
  ((st.entries.lookup p).getD InteractionEntry.init).strokes

/-- The `workspace.onDidCloseTextDocument` handler, lines 322-326 of
src/src/index.ts: `endSession()` then `delete(document.uri.fsPath)`. -/
def onDidCloseTextDocument (st : FileInteractionCache) (fsPath : String) :
    FileInteractionCache :=
  (st.endSession).delete fsPath

/-- The `workspace.onDidOpenTextDocument` handler, lines 327-331 of
src/src/index.ts: `startSession(document.uri.fsPath)` then
`incrementVisits()`. -/
def onDidOpenTextDocument (st : FileInteractionCache) (fsPath : String) :
    FileInteractionCache :=
  (st.startSession fsPath).incrementVisits

/-- Context-item identifiers.  File items use their workspace-relative
path as id (line 281); selection items use a `uuidv4()` value (line 300),
modelled from the spec as a fresh unique token drawn from an injective
supply (the `uuid` library is not under src/). -/
inductive ContextId where
  | filePath (p : String)
  | uuid (n : Nat)
deriving DecidableEq, Repr

/-- The `category` discriminant of a context item. -/
inductive ContextCategory where
  | file
  | selection
deriving DecidableEq, Repr

/-- The `selectionRange` of a `SelectionContextItem` (lines 307-312). -/
structure SelectionRange where
  startLine : Nat
  startCharacter : Nat
  endLine : Nat
  endCharacter : Nat
deriving DecidableEq, Repr

/-- A context item: the common fields of `FileContextItem` and
`SelectionContextItem`; `content` and `selectionRange` are present only
on the selection variant. -/
structure ContextItem where
  id : ContextId
  category : ContextCategory
  name : String
  path : String
  content : Option String
  selectionRange : Option SelectionRange
deriving DecidableEq, Repr

/-- Modelled from the spec: `sidebarProvider.addContextItem` (the
`SidebarProvider` class is not under src/).  Spec section 4.4: `add(item)`
inserts keyed by `id`; re-adding an existing `id` must not create a
duplicate (replace-in-place or ignore are both allowed; ignore is
modelled), and `list()` returns items in insertion order. -/
def addContextItem (reg : List ContextItem) (item : ContextItem) :
    List ContextItem :=
  if reg.any (fun it => it.id == item.id) then reg else reg ++ [item]

/-- The `twinny.addFileToContext` command handler, lines 276-290 of
src/src/index.ts: builds a `FileContextItem` whose `id` and `path` are
the active document's workspace-relative path and whose `name` is its
base name, then hands it to `addContextItem`.  The editor-supplied values
(`workspace.asRelativePath(...)`, `path.basename(...)`) are parameters. -/
def addFileToContext (filePath baseName : String)
    (reg : List ContextItem) : List ContextItem :=
  addContextItem reg
    ⟨.filePath filePath, .file, baseName, filePath, none, none⟩

/-- The selection label of lines 302-304:
`Selection from <basename> (L<start+1>-L<end+1>)`. -/
def selectionName (baseName : String) (sel : SelectionRange) : String :=
  "Selection from " ++ baseName ++ " (L" ++ toString (sel.startLine + 1) ++
    "-L" ++ toString (sel.endLine + 1) ++ ")"

/-- The `twinny.addSelectionToContext` command handler, lines 291-321 of
src/src/index.ts: when the active selection is non-empty, builds a
`SelectionContextItem` with a fresh `uuidv4()` id (modelled as the
counter `ctr` of the fresh-token supply) and hands it to
`addContextItem`; when the selection is empty only an informational
message is shown and the registry is unchanged.  Returns the registry
and the advanced counter. -/
def addSelectionToContext (selectionIsEmpty : Bool) (ctr : Nat)
    (filePath baseName selectedText : String) (sel : SelectionRange)
    (reg : List ContextItem) : List ContextItem × Nat :=
  if selectionIsEmpty then (reg, ctr)
  else
    (addContextItem reg
      ⟨.uuid ctr, .selection, selectionName baseName sel, filePath,
        some selectedText, some sel⟩,
     ctr + 1)

/-- The fresh-token supply is ahead of every uuid already in the
registry: no stored selection id was minted at or beyond `ctr`. -/
def ctrFresh (reg : List ContextItem) (ctr : Nat) : Prop :=
  ∀ item ∈ reg, ∀ n, item.id = .uuid n → n < ctr

/-- Well-formedness of the dedup cache: both containers are
duplicate-free and hold the same ids.  The source keeps
`recentCompletionIdsSet` and `recentCompletionIdsQueue` in sync inside
one synchronous block, so every reachable state satisfies this. -/
def DedupCache.WF (c : DedupCache) : Prop :=
  c.set.Nodup ∧ c.queue.Nodup ∧ ∀ x, x ∈ c.set ↔ x ∈ c.queue

/-- A fault-free change event for completion id `id`, landing in the file
(`"f"`) the completion was generated for, with inserted text (`"u"`)
different from the last completion text (`"t"`). -/
def eventFor (id : String) : Step :=
  { prov := { lastCompletionText := "t", lastCompletionId := some id,
              documentFileName := some "f" }
    ev := { contentChange := some ⟨"u", 0, 0⟩, docPath := "f" }
    faults := ⟨false, false, false⟩ }

/-- An event trace for completion id `"X"`, then ten events for ten
other distinct completion ids, then a second event for `"X"`: exactly
`MAX_RECENT_COMPLETION_IDS` other ids are inserted into the dedup cache
between the two events for `"X"`. -/
def evictionTrace : List Step :=
  eventFor "X" ::
    ((List.range MAX_RECENT_COMPLETION_IDS).map
      fun i => eventFor ("a" ++ toString i)) ++ [eventFor "X"]

/-- The FeedbackRecord computed at lines 392-394 (and recomputed
verbatim at lines 413-415 on the fallback path):
`accepted = !!(changes.text && lastCompletion && changes.text === lastCompletion)`
and `userText = accepted ? undefined : changes.text || ""`. -/
def builtRecord (changes : ContentChange) (prov : ProviderView)
    (cid : String) : FeedbackRecord :=
  ⟨!(changes.text == "") && !(prov.lastCompletionText == "") &&
      (changes.text == prov.lastCompletionText),
    if !(changes.text == "") && !(prov.lastCompletionText == "") &&
        (changes.text == prov.lastCompletionText) then none
      else some changes.text,
    cid⟩

theorem DedupCache.wf_empty : DedupCache.empty.WF := by
  refine ⟨List.nodup_nil, List.nodup_nil, ?_⟩
  simp [DedupCache.empty]

theorem DedupCache.containsId_iff {c : DedupCache} {id : String} :
    c.containsId id = true ↔ id ∈ c.set := by
  simp [DedupCache.containsId, List.elem_iff]

theorem DedupCache.not_containsId_iff {c : DedupCache} {id : String} :
    c.containsId id = false ↔ id ∉ c.set := by
  rw [← Bool.not_eq_true, DedupCache.containsId_iff]

/-- `insertId` preserves well-formedness of the dedup cache. -/
theorem DedupCache.insertId_wf {c : DedupCache} (h : c.WF) (id : String) :
    (c.insertId id).WF := by
  obtain ⟨hs, hq, hiff⟩ := h
  unfold DedupCache.insertId
  by_cases hc : c.containsId id
  · simp only [hc, if_true]; exact ⟨hs, hq, hiff⟩
  · rw [Bool.not_eq_true] at hc
    have hid_set : id ∉ c.set := DedupCache.not_containsId_iff.mp hc
    have hid_q : id ∉ c.queue := fun h => hid_set ((hiff id).mpr h)
    have hset1 : (c.set ++ [id]).Nodup := by
      simp [List.nodup_append, hs, hid_set]
    have hq1 : (c.queue ++ [id]).Nodup := by
      simp [List.nodup_append, hq, hid_q]
    have hiff1 : ∀ x, x ∈ c.set ++ [id] ↔ x ∈ c.queue ++ [id] := by
      intro x; simp [hiff x]
    simp only [hc, Bool.false_eq_true, if_false]
    split
    · rename_i hlen
      split
      · exact ⟨hset1, hq1, hiff1⟩
      · rename_i oldest rest heq
        refine ⟨hset1.erase oldest, ?_, ?_⟩
        · have : (oldest :: rest).Nodup := heq ▸ hq1
          exact this.of_cons
        · intro x
          rw [hset1.mem_erase_iff]
          have hx : x ∈ c.set ++ [id] ↔ x ∈ oldest :: rest := heq ▸ hiff1 x
          have hno : (oldest :: rest).Nodup := heq ▸ hq1
          constructor
          · intro ⟨hne, hmem⟩
            rcases (List.mem_cons).mp (hx.mp hmem) with h1 | h1
            · exact absurd h1 hne
            · exact h1
          · intro hmem
            refine ⟨?_, hx.mpr (List.mem_cons_of_mem _ hmem)⟩
            intro hcontra
            exact (List.nodup_cons.mp hno).1 (hcontra ▸ hmem)
    · exact ⟨hset1, hq1, hiff1⟩

/-- `insertId` keeps the queue within capacity. -/
theorem DedupCache.insertId_length_le {c : DedupCache}
    (h : c.queue.length ≤ MAX_RECENT_COMPLETION_IDS) (id : String) :
    (c.insertId id).queue.length ≤ MAX_RECENT_COMPLETION_IDS := by
  unfold DedupCache.insertId
  by_cases hc : c.containsId id
  · simpa [hc] using h
  · simp only [hc, Bool.false_eq_true, if_false]
    split
    · rename_i hlen
      split
      · rename_i heq
        simp at heq
      · rename_i oldest rest heq
        have hlen2 : (c.queue ++ [id]).length = rest.length + 1 := by
          rw [heq]; simp
        simp at hlen2
        show rest.length ≤ MAX_RECENT_COMPLETION_IDS
        omega
    · rename_i hlen
      simpa using Nat.le_of_not_lt hlen

/-- Capacity invariant: from a well-bounded state, any sequence of
insertions keeps the queue within `MAX_RECENT_COMPLETION_IDS`. -/
theorem DedupCache.insertAll_length_le {c : DedupCache}
    (h : c.queue.length ≤ MAX_RECENT_COMPLETION_IDS) (ids : List String) :
    (c.insertAll ids).queue.length ≤ MAX_RECENT_COMPLETION_IDS := by
  induction ids generalizing c with
  | nil => exact h
  | cons a as ih =>
    exact ih (DedupCache.insertId_length_le h a)

/-- `insertAll` preserves well-formedness. -/
theorem DedupCache.insertAll_wf {c : DedupCache} (h : c.WF)
    (ids : List String) : (c.insertAll ids).WF := by
  induction ids generalizing c with
  | nil => exact h
  | cons a as ih => exact ih (DedupCache.insertId_wf h a)

/-- In a well-formed cache the `Set` mirror has the same size as the
queue. -/
theorem DedupCache.set_length_eq {c : DedupCache} (h : c.WF) :
    c.set.length = c.queue.length := by
  obtain ⟨hs, hq, hiff⟩ := h
  have h1 : c.set.length ≤ c.queue.length :=
    (hs.subperm fun x hx => (hiff x).mp hx).length_le
  have h2 : c.queue.length ≤ c.set.length :=
    (hq.subperm fun x hx => (hiff x).mpr hx).length_le
  omega

/-- When the inserted id is new and the queue is strictly below capacity
after the push, no eviction happens. -/
theorem DedupCache.insertId_no_evict {c : DedupCache} {id : String}
    (hc : c.containsId id = false)
    (hlen : c.queue.length + 1 ≤ MAX_RECENT_COMPLETION_IDS) :
    c.insertId id = ⟨c.set ++ [id], c.queue ++ [id]⟩ := by
  unfold DedupCache.insertId
  simp only [hc, Bool.false_eq_true, if_false]
  have : ¬ MAX_RECENT_COMPLETION_IDS < (c.queue ++ [id]).length := by
    simp; omega
  simp only [this, if_false]

/-- When the inserted id is new and the push overflows the capacity, the
oldest queue entry is shifted off. -/
theorem DedupCache.insertId_evict {c : DedupCache} {id : String}
    (hc : c.containsId id = false)
    (hlen : MAX_RECENT_COMPLETION_IDS < (c.queue ++ [id]).length) :
    (c.insertId id).queue = (c.queue ++ [id]).tail := by
  unfold DedupCache.insertId
  simp only [hc, Bool.false_eq_true, if_false, hlen, if_true]
  split
  · rename_i heq
    simp [heq]
  · rename_i oldest rest heq
    rw [heq]
    rfl

/-- FIFO characterization: inserting a duplicate-free list of ids into
the empty cache leaves exactly the most recent
`MAX_RECENT_COMPLETION_IDS` of them in the queue, in order. -/
theorem DedupCache.insertAll_empty_queue (L : List String) (h : L.Nodup) :
    (DedupCache.empty.insertAll L).queue =
      L.drop (L.length - MAX_RECENT_COMPLETION_IDS) := by
  induction L using List.reverseRecOn with
  | nil => rfl
  | append_singleton L a ih =>
    obtain ⟨hL, -, hdisj⟩ := List.nodup_append.mp h
    have ha : a ∉ L := fun hmem => hdisj hmem (List.mem_singleton.mpr rfl)
    have hwf : (DedupCache.empty.insertAll L).WF :=
      DedupCache.insertAll_wf DedupCache.wf_empty L
    have hqueue := ih hL
    have hcont : (DedupCache.empty.insertAll L).containsId a = false := by
      rw [DedupCache.not_containsId_iff, hwf.2.2, hqueue]
      intro hmem
      exact ha (List.drop_subset _ _ hmem)
    have hfold : DedupCache.empty.insertAll (L ++ [a]) =
        (DedupCache.empty.insertAll L).insertId a := by
      unfold DedupCache.insertAll
      exact List.foldl_concat _ _ a L
    rw [hfold]
    by_cases hn : L.length + 1 ≤ MAX_RECENT_COMPLETION_IDS
    · have hq0 : L.length - MAX_RECENT_COMPLETION_IDS = 0 := by omega
      have hq : (DedupCache.empty.insertAll L).queue = L := by
        rw [hqueue, hq0, List.drop_zero]
      have hlen : (DedupCache.empty.insertAll L).queue.length + 1 ≤
          MAX_RECENT_COMPLETION_IDS := by
        rw [hq]; exact hn
      rw [DedupCache.insertId_no_evict hcont hlen]
      have hq1 : (L ++ [a]).length - MAX_RECENT_COMPLETION_IDS = 0 := by
        simp; omega
      rw [hq1, List.drop_zero]
      show (DedupCache.empty.insertAll L).queue ++ [a] = L ++ [a]
      rw [hq]
    · have hbig : MAX_RECENT_COMPLETION_IDS ≤ L.length := by omega
      have hqlen : (DedupCache.empty.insertAll L).queue.length =
          MAX_RECENT_COMPLETION_IDS := by
        rw [hqueue, List.length_drop]; omega
      have hlen : MAX_RECENT_COMPLETION_IDS <
          ((DedupCache.empty.insertAll L).queue ++ [a]).length := by
        rw [List.length_append, hqlen]; simp
      rw [DedupCache.insertId_evict hcont hlen]
      have hne : (DedupCache.empty.insertAll L).queue ≠ [] := by
        intro hnil
        rw [hnil] at hqlen
        simp [MAX_RECENT_COMPLETION_IDS] at hqlen
      rw [List.tail_append_of_ne_nil hne, hqueue, List.tail_drop]
      have hpos : 0 < MAX_RECENT_COMPLETION_IDS := by decide
      have hle : (L ++ [a]).length - MAX_RECENT_COMPLETION_IDS ≤ L.length := by
        rw [List.length_append, List.length_singleton]
        omega
      rw [List.drop_append_of_le_length hle]
      have : L.length - MAX_RECENT_COMPLETION_IDS + 1 =
          (L ++ [a]).length - MAX_RECENT_COMPLETION_IDS := by
        simp; omega
      rw [this]

/-- Membership after inserting a duplicate-free list into the empty
cache: exactly the most recent `MAX_RECENT_COMPLETION_IDS` ids test as
present. -/
theorem DedupCache.insertAll_empty_mem (L : List String) (h : L.Nodup)
    (id : String) :
    (DedupCache.empty.insertAll L).containsId id = true ↔
      id ∈ L.drop (L.length - MAX_RECENT_COMPLETION_IDS) := by
  rw [DedupCache.containsId_iff,
    (DedupCache.insertAll_wf DedupCache.wf_empty L).2.2,
    DedupCache.insertAll_empty_queue L h]

/-- The qualifying id of a step is unique: it is the value of
`lastCompletionId`. -/
theorem qualifies_unique {s : Step} {X Y : String}
    (hX : qualifies s X) (hY : qualifies s Y) : X = Y := by
  have h1 := hX.2.2.2.2
  have h2 := hY.2.2.2.2
  rw [h1] at h2
  exact Option.some.injEq _ _ ▸ h2

/-- Dichotomy for one step whose `recordCompletionInteraction` call does
not throw: either the step qualifies for a fresh id, hands over exactly
one record for it and inserts it into the dedup cache, or it hands over
no record, leaves the cache unchanged, and any id it qualifies for was
already cached. -/
theorem runStep_cases (acc : DedupCache × List FeedbackRecord) (s : Step)
    (hf : s.faults.recordThrows = false) :
    (∃ X r, qualifies s X ∧ acc.1.containsId X = false ∧
        r.completionId = X ∧
        runStep acc s = (acc.1.insertId X, acc.2 ++ [r])) ∨
    (runStep acc s = acc ∧
      ∀ X, qualifies s X → acc.1.containsId X = true) := by
  obtain ⟨prov, ev, f⟩ := s
  rcases hev : ev.contentChange with - | changes
  · right
    constructor
    · simp [runStep, onDidChangeTextDocument, hev]
    · intro X hq
      have := hq.2.1
      simp [hev] at this
  · by_cases hpc : f.pathCheckThrows = true
    · right
      constructor
      · simp [runStep, onDidChangeTextDocument, hev, hpc]
      · intro X hq
        exact absurd hq.1 (by simp [hpc])
    · rw [Bool.not_eq_true] at hpc
      by_cases hcond : (ev.docPath == "" ||
          (prov.documentFileName.getD "" == "") ||
          (ev.docPath != prov.documentFileName.getD "")) = true
      · right
        constructor
        · simp only [runStep, onDidChangeTextDocument, hev, hpc,
            Bool.false_eq_true, if_false, hcond, if_true]
          simp
        · intro X hq
          obtain ⟨-, -, h3, h4, -⟩ := hq
          rw [h4] at hcond
          simp [h3] at hcond
      · rcases hid : prov.lastCompletionId with - | cid
        · right
          constructor
          · simp only [runStep, onDidChangeTextDocument, hev, hpc,
              Bool.false_eq_true, if_false, hcond, hid]
            simp
          · intro X hq
            have := hq.2.2.2.2
            rw [hid] at this
            exact Option.noConfusion this
        · rw [Bool.not_eq_true] at hcond
          simp only [Bool.or_eq_false_iff] at hcond
          obtain ⟨⟨hc1, hc2⟩, hc3⟩ := hcond
          have hpath : ev.docPath = prov.documentFileName.getD "" := by
            simpa using hc3
          have hne : ev.docPath ≠ "" := by
            intro h
            rw [h] at hc1
            simp at hc1
          by_cases hfound : acc.1.containsId cid = true
          · right
            constructor
            · simp only [runStep, onDidChangeTextDocument, hev, hpc,
                Bool.false_eq_true, if_false, hc1, hc2, hc3,
                Bool.or_self, Bool.or_false, hid, hfound, if_true]
              simp
            · intro X hq
              have := hq.2.2.2.2
              rw [hid] at this
              rw [Option.some.injEq] at this
              rw [this] at hfound
              exact hfound
          · rw [Bool.not_eq_true] at hfound
            left
            refine ⟨cid,
              ⟨!(changes.text == "") && !(prov.lastCompletionText == "") &&
                  (changes.text == prov.lastCompletionText),
                if (!(changes.text == "") &&
                    !(prov.lastCompletionText == "") &&
                    (changes.text == prov.lastCompletionText)) = true
                  then none else some changes.text, cid⟩,
              ⟨hpc, by simp [hev], hne, hpath.symm, hid⟩, hfound, rfl, ?_⟩
            have hf2 : f.recordThrows = false := hf
            simp only [runStep, onDidChangeTextDocument, hev, hpc,
              Bool.false_eq_true, if_false, hc1, hc2, hc3,
              Bool.or_self, Bool.or_false, hid, hfound, hf2]

/-- Trace invariant: with fault-free recording and all qualifying ids
drawn from a duplicate-free pool `S` of at most
`MAX_RECENT_COMPLETION_IDS` ids, the number of records handed over per
id tracks dedup-cache membership exactly, and membership is monotone
along the trace. -/
theorem runTrace_inv (S : List String)
    (hSlen : S.length ≤ MAX_RECENT_COMPLETION_IDS) :
    ∀ (steps : List Step) (c : DedupCache) (recs : List FeedbackRecord),
      (∀ s ∈ steps, s.faults.recordThrows = false) →
      (∀ s ∈ steps, ∀ X, qualifies s X → X ∈ S) →
      c.WF → (∀ x ∈ c.queue, x ∈ S) →
      (∀ X, recordsFor X recs = if X ∈ c.set then 1 else 0) →
      (steps.foldl runStep (c, recs)).1.WF ∧
      (∀ x ∈ (steps.foldl runStep (c, recs)).1.queue, x ∈ S) ∧
      (∀ X, recordsFor X (steps.foldl runStep (c, recs)).2 =
        if X ∈ (steps.foldl runStep (c, recs)).1.set then 1 else 0) ∧
      (∀ X, X ∈ c.set → X ∈ (steps.foldl runStep (c, recs)).1.set) ∧
      (∀ X, (∃ s ∈ steps, qualifies s X) →
        X ∈ (steps.foldl runStep (c, recs)).1.set) := by
  intro steps
  induction steps with
  | nil =>
    intro c recs _ _ hwf hsub hcount
    refine ⟨hwf, hsub, hcount, fun X h => h, ?_⟩
    rintro X ⟨s, hs, -⟩
    exact absurd hs (List.not_mem_nil s)
  | cons s rest ih =>
    intro c recs hff hids hwf hsub hcount
    have hffs : s.faults.recordThrows = false := hff s (List.mem_cons_self s rest)
    have hffr : ∀ t ∈ rest, t.faults.recordThrows = false :=
      fun t ht => hff t (List.mem_cons_of_mem s ht)
    have hidsr : ∀ t ∈ rest, ∀ X, qualifies t X → X ∈ S :=
      fun t ht => hids t (List.mem_cons_of_mem s ht)
    rcases runStep_cases (c, recs) s hffs with
      ⟨X0, r, hq, hcontX, hrid, heq⟩ | ⟨heq, hmem⟩
    · rw [List.foldl_cons, heq]
      have hX0S : X0 ∈ S := hids s (List.mem_cons_self s rest) X0 hq
      have hX0set : X0 ∉ c.set := DedupCache.not_containsId_iff.mp hcontX
      have hX0q : X0 ∉ c.queue := fun h => hX0set ((hwf.2.2 X0).mpr h)
      have hqlen : c.queue.length + 1 ≤ MAX_RECENT_COMPLETION_IDS := by
        have hnd : (c.queue ++ [X0]).Nodup := by
          simp [List.nodup_append, hwf.2.1, hX0q]
        have hsub2 : c.queue ++ [X0] ⊆ S := by
          intro x hx
          rcases List.mem_append.mp hx with hx | hx
          · exact hsub x hx
          · rw [List.mem_singleton.mp hx]; exact hX0S
        have hle := (hnd.subperm hsub2).length_le
        rw [List.length_append, List.length_singleton] at hle
        omega
      have hne := DedupCache.insertId_no_evict hcontX hqlen
      have hwf2 : (c.insertId X0).WF := DedupCache.insertId_wf hwf X0
      have hsetEq : (c.insertId X0).set = c.set ++ [X0] := by rw [hne]
      have hqEq : (c.insertId X0).queue = c.queue ++ [X0] := by rw [hne]
      have hsubQ : ∀ x ∈ (c.insertId X0).queue, x ∈ S := by
        rw [hqEq]
        intro x hx
        rcases List.mem_append.mp hx with hx | hx
        · exact hsub x hx
        · rw [List.mem_singleton.mp hx]; exact hX0S
      have hcount2 : ∀ X, recordsFor X (recs ++ [r]) =
          if X ∈ (c.insertId X0).set then 1 else 0 := by
        intro X
        rw [recordsFor, List.countP_append, hsetEq]
        have hc0 := hcount X
        rw [recordsFor] at hc0
        by_cases hXX : X = X0
        · subst hXX
          rw [hc0]
          simp [hX0set, hrid]
        · have hsingle :
              List.countP (fun q => q.completionId == X) [r] = 0 := by
            simp [hrid, hXX, bne_iff_ne, Ne.symm]
          rw [hc0, hsingle]
          have : X ∈ c.set ++ [X0] ↔ X ∈ c.set := by
            simp [hXX]
          rw [if_congr this rfl rfl]
          simp
      have IH := ih (c.insertId X0) (recs ++ [r]) hffr hidsr hwf2 hsubQ hcount2
      refine ⟨IH.1, IH.2.1, IH.2.2.1, ?_, ?_⟩
      · intro X hX
        refine IH.2.2.2.1 X ?_
        rw [hsetEq]
        exact List.mem_append_left _ hX
      · rintro X ⟨s', hs', hq'⟩
        rcases List.mem_cons.mp hs' with rfl | hs'mem
        · have hXX0 : X = X0 := qualifies_unique hq' hq
          refine IH.2.2.2.1 X ?_
          rw [hsetEq, hXX0]
          exact List.mem_append_right _ (List.mem_singleton.mpr rfl)
        · exact IH.2.2.2.2 X ⟨s', hs'mem, hq'⟩
    · rw [List.foldl_cons, heq]
      have IH := ih c recs hffr hidsr hwf hsub hcount
      refine ⟨IH.1, IH.2.1, IH.2.2.1, IH.2.2.2.1, ?_⟩
      rintro X ⟨s', hs', hq'⟩
      rcases List.mem_cons.mp hs' with rfl | hs'mem
      · have := hmem X hq'
        exact IH.2.2.2.1 X (DedupCache.containsId_iff.mp this)
      · exact IH.2.2.2.2 X ⟨s', hs'mem, hq'⟩

/-- C1 counterexample.  The claim asserts at-most-once recording even
when up to `N = MAX_RECENT_COMPLETION_IDS` other distinct completionIds
are inserted into the Dedup Cache between events for the same id.  In
`evictionTrace`, one fault-free event for id `"X"` is followed by events
for exactly `N` other distinct ids and then a second event for `"X"`:
the insertion of the `N`-th other id evicts `"X"` from the cache
(lines 402-405 of src/src/index.ts), so the final event hands a second
FeedbackRecord for `"X"` to `recordCompletionInteraction` — two records
in total, refuting the claim as stated. -/
theorem feedback_duplicate_under_eviction :
    recordsFor "X" (runTrace DedupCache.empty evictionTrace).2 = 2 := by
  decide

/-- C1 (amended): for every sequence of fault-free document-change
events whose qualifying completionIds are drawn from a pool of at most
`MAX_RECENT_COMPLETION_IDS` distinct ids (so no dedup-cache eviction can
occur between events for the same id), at most one FeedbackRecord is
handed to `recordCompletionInteraction` per completionId — exactly one
if any event qualifies for that id. -/
theorem feedback_recorded_at_most_once (steps : List Step)
    (S : List String) (X : String)
    (hff : ∀ s ∈ steps, s.faults.recordThrows = false)
    (hids : ∀ s ∈ steps, ∀ Y, qualifies s Y → Y ∈ S)
    (hSlen : S.length ≤ MAX_RECENT_COMPLETION_IDS) :
    recordsFor X (runTrace DedupCache.empty steps).2 ≤ 1 ∧
    ((∃ s ∈ steps, qualifies s X) →
      recordsFor X (runTrace DedupCache.empty steps).2 = 1) := by
  have hinv := runTrace_inv S hSlen steps DedupCache.empty [] hff hids
    DedupCache.wf_empty
    (by intro x hx; simp [DedupCache.empty] at hx)
    (by intro Y; simp [recordsFor, DedupCache.empty])
  simp only [runTrace]
  constructor
  · rw [hinv.2.2.1 X]
    split <;> omega
  · intro hex
    rw [hinv.2.2.1 X, if_pos (hinv.2.2.2.2 X hex)]

/-- Witness for C1 (amended): a single qualifying fault-free event for
`"X"` yields exactly one record for `"X"`. -/
theorem feedback_recorded_at_most_once_witness :
    recordsFor "X" (runTrace DedupCache.empty [eventFor "X"]).2 = 1 :=
  (feedback_recorded_at_most_once [eventFor "X"] ["X"] "X"
    (by decide)
    (by
      intro s hs Y hq
      rw [List.mem_singleton.mp hs] at hq
      have h5 := hq.2.2.2.2
      simp [eventFor] at h5
      simp [h5])
    (by decide)).2
    ⟨eventFor "X", by simp, by decide⟩

/-- C4: the Dedup Cache never holds more than
`MAX_RECENT_COMPLETION_IDS` identifiers after any sequence of
insertions, and after inserting `N + k` distinct identifiers (`k ≥ 1`)
exactly the `N` most recently inserted ones test as present while the
`k` oldest test as absent (FIFO eviction). -/
theorem dedup_capacity_and_fifo :
    (∀ ids : List String,
      (DedupCache.empty.insertAll ids).queue.length ≤
        MAX_RECENT_COMPLETION_IDS ∧
      (DedupCache.empty.insertAll ids).set.length ≤
        MAX_RECENT_COMPLETION_IDS) ∧
    (∀ (L : List String) (k : Nat), L.Nodup →
      L.length = MAX_RECENT_COMPLETION_IDS + k → 1 ≤ k →
      (∀ id ∈ L.drop k,
        (DedupCache.empty.insertAll L).containsId id = true) ∧
      (∀ id ∈ L.take k,
        (DedupCache.empty.insertAll L).containsId id = false)) := by
  constructor
  · intro ids
    have hwf := DedupCache.insertAll_wf DedupCache.wf_empty ids
    have hq := DedupCache.insertAll_length_le
      (c := DedupCache.empty) (by simp [DedupCache.empty]) ids
    exact ⟨hq, by rw [DedupCache.set_length_eq hwf]; exact hq⟩
  · intro L k hnd hlen hk
    have hdropEq : L.length - MAX_RECENT_COMPLETION_IDS = k := by omega
    constructor
    · intro id hid
      rw [DedupCache.insertAll_empty_mem L hnd, hdropEq]
      exact hid
    · intro id hid
      rw [← Bool.not_eq_true, DedupCache.insertAll_empty_mem L hnd, hdropEq]
      intro hmem
      have hsplit := List.take_append_drop k L
      rw [← hsplit] at hnd
      exact (List.nodup_append.mp hnd).2.2 hid hmem

/-- Witness for C4: after inserting twelve distinct ids, the two oldest
are gone and a recent one is still present. -/
theorem dedup_capacity_and_fifo_witness :
    (DedupCache.empty.insertAll
      ["i0", "i1", "i2", "i3", "i4", "i5", "i6", "i7", "i8", "i9",
        "i10", "i11"]).containsId "i11" = true ∧
    (DedupCache.empty.insertAll
      ["i0", "i1", "i2", "i3", "i4", "i5", "i6", "i7", "i8", "i9",
        "i10", "i11"]).containsId "i0" = false := by
  have h := dedup_capacity_and_fifo.2
    ["i0", "i1", "i2", "i3", "i4", "i5", "i6", "i7", "i8", "i9",
      "i10", "i11"] 2 (by decide) (by decide) (by decide)
  exact ⟨h.1 "i11" (by decide), h.2 "i0" (by decide)⟩

/-- Output shape of the change handler on an event with a content
change: the handler returns normally, calls `incrementStrokes` exactly
once with the range start, sets the accepted-last-completion flag to the
line 340-347 value, and its record hand-offs are either none (cache
untouched), one `builtRecord` followed by a cache insertion (success
path, line 396-406), or the same `builtRecord` twice with the cache
untouched (throwing call at line 396 retried at line 417). -/
theorem handler_shape (prov : ProviderView) (cache : DedupCache)
    (ev : ChangeEvent) (f : Faults) (changes : ContentChange)
    (h1 : ev.contentChange = some changes) :
    ∃ (cache2 : DedupCache) (recs : List FeedbackRecord),
      onDidChangeTextDocument prov cache ev f =
        .ok (cache2, ⟨recs, [(changes.startLine, changes.startChar)],
          some (!(changes.text == "") &&
            !(prov.lastCompletionText == "") &&
            (changes.text == prov.lastCompletionText) &&
            decide (getLineBreakCount prov.lastCompletionText > 1))⟩) ∧
      ((recs = [] ∧ cache2 = cache) ∨
        (∃ cid, prov.lastCompletionId = some cid ∧
          cache.containsId cid = false ∧
          ((f.recordThrows = true ∧
            recs = [builtRecord changes prov cid,
              builtRecord changes prov cid] ∧
            cache2 = cache) ∨
           (f.recordThrows = false ∧
            recs = [builtRecord changes prov cid] ∧
            cache2 = cache.insertId cid)))) := by
  simp only [onDidChangeTextDocument, h1]
  by_cases hpc : f.pathCheckThrows = true
  · simp only [hpc, if_true]
    exact ⟨cache, [], rfl, Or.inl ⟨rfl, rfl⟩⟩
  · rw [Bool.not_eq_true] at hpc
    simp only [hpc, Bool.false_eq_true, if_false]
    by_cases hcond : (ev.docPath == "" ||
        (prov.documentFileName.getD "" == "") ||
        (ev.docPath != prov.documentFileName.getD "")) = true
    · simp only [hcond, if_true]
      exact ⟨cache, [], rfl, Or.inl ⟨rfl, rfl⟩⟩
    · rw [Bool.not_eq_true] at hcond
      simp only [hcond, Bool.false_eq_true, if_false]
      rcases hid : prov.lastCompletionId with - | cid
      · exact ⟨cache, [], rfl, Or.inl ⟨rfl, rfl⟩⟩
      · by_cases hfound : cache.containsId cid = true
        · simp only [hfound, if_true]
          exact ⟨cache, [], rfl, Or.inl ⟨rfl, rfl⟩⟩
        · rw [Bool.not_eq_true] at hfound
          simp only [hfound, Bool.false_eq_true, if_false]
          by_cases hrt : f.recordThrows = true
          · simp only [hrt, if_true]
            exact ⟨cache,
              [builtRecord changes prov cid, builtRecord changes prov cid],
              rfl, Or.inr ⟨cid, rfl, hfound, Or.inl ⟨by simp [hrt], rfl, rfl⟩⟩⟩
          · rw [Bool.not_eq_true] at hrt
            simp only [hrt, Bool.false_eq_true, if_false]
            exact ⟨cache.insertId cid, [builtRecord changes prov cid],
              rfl, Or.inr ⟨cid, rfl, hfound, Or.inr ⟨by simp [hrt], rfl, rfl⟩⟩⟩


/-- The accepted flag computed at lines 392-393 simplifies: the middle
truthiness test on `lastCompletion` is implied by the equality test. -/
theorem builtRecord_accepted_eq (t lc : String) :
    (!(t == "") && !(lc == "") && (t == lc)) = (!(t == "") && (t == lc)) := by
  cases h1 : (t == "") <;> cases h2 : (lc == "") <;>
    cases h3 : (t == lc) <;> simp_all

/-- C2 counterexample.  The claim asserts `accepted = true` iff the
inserted text equals the last completion text, *including empty
strings*.  With inserted text `""` and last completion text `""` (equal
strings), the truthiness guards of line 392-393
(`!!(changes.text && lastCompletion && ...)`) make `accepted = false`,
and a record with `accepted = false` and `userText = ""` is handed over
— refuting the biconditional at this input. -/
theorem accepted_false_on_empty_equal_texts :
    handlerRecords ⟨"", some "c1", some "f"⟩ DedupCache.empty
      ⟨some ⟨"", 0, 0⟩, "f"⟩ ⟨false, false, false⟩ =
      [⟨false, some "", "c1"⟩] := by
  decide

/-- C2 (amended): whenever a FeedbackRecord is produced for an edit
event, `accepted` is true iff the edit's inserted text is non-empty and
exactly equal to the last completion text; when `accepted` is false,
`userText` equals the edited text (possibly empty), and when `accepted`
is true, `userText` is absent. -/
theorem feedback_accepted_classification (prov : ProviderView)
    (cache : DedupCache) (ev : ChangeEvent) (f : Faults)
    (changes : ContentChange) (res : DedupCache × HandlerOutput)
    (r : FeedbackRecord)
    (h1 : ev.contentChange = some changes)
    (h2 : onDidChangeTextDocument prov cache ev f = .ok res)
    (h3 : r ∈ res.2.records) :
    (r.accepted = (!(changes.text == "") &&
      (changes.text == prov.lastCompletionText))) ∧
    (r.accepted = false → r.userText = some changes.text) ∧
    (r.accepted = true → r.userText = none) := by
  obtain ⟨cache2, recs, heq, hshape⟩ := handler_shape prov cache ev f changes h1
  rw [heq] at h2
  rw [Except.ok.injEq] at h2
  rw [← h2] at h3
  change r ∈ recs at h3
  rcases hshape with ⟨hrecs, -⟩ | ⟨cid, -, -, hcase⟩
  · rw [hrecs] at h3
    exact absurd h3 (List.not_mem_nil r)
  · have hrb : r = builtRecord changes prov cid := by
      rcases hcase with ⟨-, hrecs, -⟩ | ⟨-, hrecs, -⟩
      · rw [hrecs] at h3
        rcases List.mem_cons.mp h3 with h | h
        · exact h
        · exact List.mem_singleton.mp h
      · rw [hrecs] at h3
        exact List.mem_singleton.mp h3
    subst hrb
    refine ⟨builtRecord_accepted_eq _ _, ?_, ?_⟩
    · intro hacc
      simp only [builtRecord] at hacc ⊢
      simp only [hacc, Bool.false_eq_true, if_false]
    · intro hacc
      simp only [builtRecord] at hacc ⊢
      simp only [hacc, if_true]

/-- Witness for C2 (amended): a qualifying event whose inserted text
equals the (non-empty) last completion text yields a record with
`userText` absent. -/
theorem feedback_accepted_classification_witness :
    (⟨true, none, "c1"⟩ : FeedbackRecord).userText = none :=
  (feedback_accepted_classification
    ⟨"ab", some "c1", some "f"⟩ DedupCache.empty
    ⟨some ⟨"ab", 1, 2⟩, "f"⟩ ⟨false, false, false⟩
    ⟨"ab", 1, 2⟩
    (⟨["c1"], ["c1"]⟩, ⟨[⟨true, none, "c1"⟩], [(1, 2)], some false⟩)
    ⟨true, none, "c1"⟩
    rfl rfl (by decide)).2.2 rfl

/-- C5: an edit event whose document path differs from the last
completion's document path, or that arrives while no lastCompletionId is
known, produces no FeedbackRecord and leaves the dedup cache untouched
— and the stroke is still forwarded to the Interaction Store
(lines 354-359 and 423-426, 431-433 of src/src/index.ts). -/
theorem no_record_on_mismatch_or_missing_id (prov : ProviderView)
    (cache : DedupCache) (ev : ChangeEvent) (f : Faults)
    (changes : ContentChange)
    (h1 : ev.contentChange = some changes)
    (h2 : ev.docPath ≠ prov.documentFileName.getD "" ∨
      prov.lastCompletionId = none) :
    ∃ b, onDidChangeTextDocument prov cache ev f =
      .ok (cache, ⟨[], [(changes.startLine, changes.startChar)], some b⟩) := by
  simp only [onDidChangeTextDocument, h1]
  by_cases hpc : f.pathCheckThrows = true
  · simp only [hpc, if_true]
    exact ⟨_, rfl⟩
  · rw [Bool.not_eq_true] at hpc
    simp only [hpc, Bool.false_eq_true, if_false]
    by_cases hcond : (ev.docPath == "" ||
        (prov.documentFileName.getD "" == "") ||
        (ev.docPath != prov.documentFileName.getD "")) = true
    · simp only [hcond, if_true]
      exact ⟨_, rfl⟩
    · rw [Bool.not_eq_true] at hcond
      have hpath : ev.docPath = prov.documentFileName.getD "" := by
        have h3 : (ev.docPath != prov.documentFileName.getD "") = false :=
          (Bool.or_eq_false_iff.mp hcond).2
        simpa using h3
      rcases h2 with h2 | h2
      · exact absurd hpath h2
      · simp only [hcond, Bool.false_eq_true, if_false, h2]
        exact ⟨_, rfl⟩

/-- Witness for C5: an edit in a different file than the completion's
document forwards the stroke and records nothing. -/
theorem no_record_on_mismatch_or_missing_id_witness :
    ∃ b, onDidChangeTextDocument ⟨"t", some "c1", some "f"⟩
      DedupCache.empty ⟨some ⟨"u", 3, 4⟩, "g"⟩ ⟨false, false, false⟩ =
      .ok (DedupCache.empty, ⟨[], [(3, 4)], some b⟩) :=
  no_record_on_mismatch_or_missing_id ⟨"t", some "c1", some "f"⟩
    DedupCache.empty ⟨some ⟨"u", 3, 4⟩, "g"⟩ ⟨false, false, false⟩
    ⟨"u", 3, 4⟩ rfl (Or.inl (by decide))

/-- C6: every edit event with a non-empty content change calls
`incrementStrokes` exactly once, with the edit range's start line and
character, on every classification branch (lines 356-358, 363-365 and
431-433 of src/src/index.ts). -/
theorem strokes_once_per_event (prov : ProviderView) (cache : DedupCache)
    (ev : ChangeEvent) (f : Faults) (changes : ContentChange)
    (h1 : ev.contentChange = some changes) :
    ∃ cache2 out, onDidChangeTextDocument prov cache ev f =
      .ok (cache2, out) ∧
      out.strokes = [(changes.startLine, changes.startChar)] := by
  obtain ⟨cache2, recs, heq, -⟩ := handler_shape prov cache ev f changes h1
  exact ⟨cache2, _, heq, rfl⟩

/-- Witness for C6: a qualifying recording event still forwards exactly
one stroke at the range start. -/
theorem strokes_once_per_event_witness :
    ∃ cache2 out, onDidChangeTextDocument ⟨"t", some "c1", some "f"⟩
      DedupCache.empty ⟨some ⟨"u", 5, 7⟩, "f"⟩ ⟨false, false, false⟩ =
      .ok (cache2, out) ∧ out.strokes = [(5, 7)] :=
  strokes_once_per_event ⟨"t", some "c1", some "f"⟩ DedupCache.empty
    ⟨some ⟨"u", 5, 7⟩, "f"⟩ ⟨false, false, false⟩ ⟨"u", 5, 7⟩ rfl

/-- C7: the change handler never propagates an exception: it always
returns `.ok`; its output does not depend on whether the fallback
persistence call throws (that error is swallowed and logged,
lines 419-421); when the first persistence call throws, the computed
record is retried once with the very same record (`[r, r]`,
lines 409-418); and the trailing stroke accounting still runs
(lines 431-433). -/
theorem handler_never_throws (prov : ProviderView) (cache : DedupCache)
    (ev : ChangeEvent) (f : Faults) :
    ∃ res, onDidChangeTextDocument prov cache ev f = .ok res ∧
      onDidChangeTextDocument prov cache ev
        ⟨f.pathCheckThrows, f.recordThrows, !f.fallbackThrows⟩ = .ok res ∧
      (∀ changes, ev.contentChange = some changes →
        res.2.strokes = [(changes.startLine, changes.startChar)]) ∧
      (f.recordThrows = true →
        res.2.records = [] ∨ ∃ r, res.2.records = [r, r]) := by
  have hflip : onDidChangeTextDocument prov cache ev
      ⟨f.pathCheckThrows, f.recordThrows, !f.fallbackThrows⟩ =
      onDidChangeTextDocument prov cache ev f := rfl
  rcases hev : ev.contentChange with - | changes
  · refine ⟨(cache, ⟨[], [], none⟩), ?_, ?_, ?_, ?_⟩
    · simp [onDidChangeTextDocument, hev]
    · rw [hflip]
      simp [onDidChangeTextDocument, hev]
    · intro changes hsome
      exact Option.noConfusion hsome
    · intro
      exact Or.inl rfl
  · obtain ⟨cache2, recs, heq, hshape⟩ :=
      handler_shape prov cache ev f changes hev
    refine ⟨_, heq, by rw [hflip]; exact heq, ?_, ?_⟩
    · intro changes2 hsome
      rw [Option.some.injEq] at hsome
      rw [← hsome]
    · intro hrt
      rcases hshape with ⟨hrecs, -⟩ | ⟨cid, -, -, hcase⟩
      · exact Or.inl hrecs
      · rcases hcase with ⟨-, hrecs, -⟩ | ⟨hrf, -, -⟩
        · exact Or.inr ⟨builtRecord changes prov cid, hrecs⟩
        · rw [hrt] at hrf
          exact Bool.noConfusion hrf

/-- Witness for C7: on a qualifying event whose first persistence call
throws, the handler still returns `.ok` and hands the same computed
record twice. -/
theorem handler_never_throws_witness :
    ∃ res, onDidChangeTextDocument ⟨"t", some "c1", some "f"⟩
        DedupCache.empty ⟨some ⟨"u", 0, 0⟩, "f"⟩ ⟨false, true, false⟩ =
        .ok res ∧
      (res.2.records = [] ∨ ∃ r, res.2.records = [r, r]) := by
  obtain ⟨res, h1, -, -, h4⟩ := handler_never_throws
    ⟨"t", some "c1", some "f"⟩ DedupCache.empty
    ⟨some ⟨"u", 0, 0⟩, "f"⟩ ⟨false, true, false⟩
  exact ⟨res, h1, h4 rfl⟩

/-- C10: a document-change event with no content change returns before
any state mutation (line 334 of src/src/index.ts): no stroke accounting,
no record, no dedup-cache change, and the accepted-last-completion flag
is not touched. -/
theorem empty_changes_no_mutation (prov : ProviderView)
    (cache : DedupCache) (ev : ChangeEvent) (f : Faults)
    (h : ev.contentChange = none) :
    onDidChangeTextDocument prov cache ev f =
      .ok (cache, ⟨[], [], none⟩) := by
  simp [onDidChangeTextDocument, h]

/-- Witness for C10: a concrete empty-change event mutates nothing. -/
theorem empty_changes_no_mutation_witness :
    onDidChangeTextDocument ⟨"t", some "c1", some "f"⟩ DedupCache.empty
      ⟨none, "f"⟩ ⟨false, false, false⟩ =
      .ok (DedupCache.empty, ⟨[], [], none⟩) :=
  empty_changes_no_mutation ⟨"t", some "c1", some "f"⟩ DedupCache.empty
    ⟨none, "f"⟩ ⟨false, false, false⟩ rfl

/-- C8: on every edit event with a content change, the
accepted-last-completion flag (`setAcceptedLastCompletion`,
lines 340-347) is set to true exactly when the inserted text is
non-empty, equals the last completion text, and that completion is
multiline (line-break count > 1); and whenever a FeedbackRecord is also
produced for the same event, a true flag forces the record's `accepted`
field (lines 392-393) to be true — the two signals never disagree. -/
theorem accepted_flag_consistent (prov : ProviderView)
    (cache : DedupCache) (ev : ChangeEvent) (f : Faults)
    (changes : ContentChange) (res : DedupCache × HandlerOutput)
    (h1 : ev.contentChange = some changes)
    (h2 : onDidChangeTextDocument prov cache ev f = .ok res) :
    (∃ b, res.2.flagSet = some b ∧
      (b = true ↔ changes.text ≠ "" ∧
        changes.text = prov.lastCompletionText ∧
        getLineBreakCount prov.lastCompletionText > 1)) ∧
    (∀ r ∈ res.2.records, res.2.flagSet = some true →
      r.accepted = true) := by
  obtain ⟨cache2, recs, heq, hshape⟩ :=
    handler_shape prov cache ev f changes h1
  rw [heq, Except.ok.injEq] at h2
  subst h2
  constructor
  · refine ⟨_, rfl, ?_⟩
    constructor
    · intro hb
      simp only [Bool.and_eq_true, Bool.not_eq_true', beq_eq_false_iff_ne,
        beq_iff_eq, decide_eq_true_eq] at hb
      exact ⟨hb.1.1.1, hb.1.2, hb.2⟩
    · intro h
      obtain ⟨ht, heq2, hml⟩ := h
      simp only [Bool.and_eq_true, Bool.not_eq_true', beq_eq_false_iff_ne,
        beq_iff_eq, decide_eq_true_eq]
      refine ⟨⟨⟨ht, ?_⟩, heq2⟩, hml⟩
      rw [← heq2]
      exact ht
  · intro r hr hflag
    change r ∈ recs at hr
    rcases hshape with ⟨hrecs, -⟩ | ⟨cid, -, -, hcase⟩
    · rw [hrecs] at hr
      exact absurd hr (List.not_mem_nil r)
    · have hrb : r = builtRecord changes prov cid := by
        rcases hcase with ⟨-, hrecs, -⟩ | ⟨-, hrecs, -⟩
        · rw [hrecs] at hr
          rcases List.mem_cons.mp hr with h | h
          · exact h
          · exact List.mem_singleton.mp h
        · rw [hrecs] at hr
          exact List.mem_singleton.mp hr
      subst hrb
      have hflag2 := Option.some.inj hflag
      have h3 := (Bool.and_eq_true _ _).mp hflag2
      exact h3.1

/-- Witness for C8: accepting a multiline completion sets the flag and
the record's `accepted` consistently. -/
theorem accepted_flag_consistent_witness :
    (builtRecord ⟨"a\nb\nc", 0, 0⟩ ⟨"a\nb\nc", some "c1", some "f"⟩
      "c1").accepted = true := by
  have h := accepted_flag_consistent ⟨"a\nb\nc", some "c1", some "f"⟩
    DedupCache.empty ⟨some ⟨"a\nb\nc", 0, 0⟩, "f"⟩ ⟨false, false, false⟩
    ⟨"a\nb\nc", 0, 0⟩
    (DedupCache.empty.insertId "c1",
      ⟨[builtRecord ⟨"a\nb\nc", 0, 0⟩ ⟨"a\nb\nc", some "c1", some "f"⟩ "c1"],
        [(0, 0)], some true⟩)
    rfl rfl
  exact h.2 _ (by simp) rfl

/-- Key lookup skips over a prefix in which it is not found. -/
theorem lookup_append_of_none {l1 l2 : List (String × InteractionEntry)}
    {p : String} (h : l1.lookup p = none) :
    (l1 ++ l2).lookup p = l2.lookup p := by
  induction l1 with
  | nil => rfl
  | cons kv rest ih =>
    obtain ⟨k, v⟩ := kv
    by_cases hk : (p == k) = true
    · simp [List.lookup, hk] at h
    · rw [Bool.not_eq_true] at hk
      simp only [List.lookup, hk] at h
      rw [List.cons_append]
      simp only [List.lookup, hk]
      exact ih h

/-- After filtering out the entries for `p`, looking `p` up fails. -/
theorem lookup_filter_eq_none (l : List (String × InteractionEntry))
    (p : String) :
    (l.filter fun kv => !(kv.1 == p)).lookup p = none := by
  induction l with
  | nil => rfl
  | cons kv rest ih =>
    obtain ⟨k, v⟩ := kv
    by_cases hk : (k == p) = true
    · simp only [List.filter, hk, Bool.not_true]
      exact ih
    · rw [Bool.not_eq_true] at hk
      simp only [List.filter, hk, Bool.not_false]
      have hpk : (p == k) = false := by
        rw [beq_eq_false_iff_ne] at hk ⊢
        exact Ne.symm hk
      simp only [List.lookup, hpk]
      exact ih

/-- C3 counterexample.  The claim asserts that the accumulated visit and
stroke counters for a path survive any document-close followed by a
document-open for that path, with only an explicit `delete(path)`
clearing them.  But the `onDidCloseTextDocument` handler itself calls
`fileInteractionCache.delete(filePath)` on every close (line 325 of
src/src/index.ts): after two opens of `"a"` the visit counter is 2, and
after a close/open cycle it is back to 1 instead of 3 — the close/open
cycle reset the accumulated count. -/
theorem counters_reset_by_close_open :
    ((onDidOpenTextDocument (onDidOpenTextDocument
      FileInteractionCache.empty "a") "a").getVisits "a" = 2) ∧
    ((onDidOpenTextDocument (onDidCloseTextDocument (onDidOpenTextDocument
      (onDidOpenTextDocument FileInteractionCache.empty "a") "a") "a")
        "a").getVisits "a" = 1) := by
  decide

/-- C3 (amended): at the store level the claim holds — an
`endSession` followed by `startSession(path)` preserves the accumulated
visit and stroke counters of every path, and `delete(path)` clears
them — but the editor-level close handler (`onDidCloseTextDocument`)
explicitly invokes `delete(path)`, so the counters do not survive a
document-close event: after the close handler runs, the accumulated
counters for that path read zero. -/
theorem interaction_counters_store_level (st : FileInteractionCache)
    (p : String) :
    (((st.endSession).startSession p).getVisits p = st.getVisits p) ∧
    (((st.endSession).startSession p).getStrokes p = st.getStrokes p) ∧
    ((st.delete p).getVisits p = 0) ∧
    ((st.delete p).getStrokes p = 0) ∧
    ((onDidCloseTextDocument st p).getVisits p = 0) ∧
    ((onDidCloseTextDocument st p).getStrokes p = 0) := by
  have hstart : ∀ st2 : FileInteractionCache,
      ((st2.startSession p).entries.lookup p).getD InteractionEntry.init =
      (st2.entries.lookup p).getD InteractionEntry.init := by
    intro st2
    show ((if (st2.entries.lookup p).isSome then st2.entries
      else st2.entries ++ [(p, InteractionEntry.init)]).lookup p).getD
        InteractionEntry.init = _
    by_cases hl : (st2.entries.lookup p).isSome = true
    · rw [if_pos hl]
    · rw [if_neg hl]
      have hl2 : st2.entries.lookup p = none := by
        rcases hh : st2.entries.lookup p with - | v
        · rfl
        · rw [hh] at hl
          simp at hl
      rw [lookup_append_of_none hl2, hl2]
      simp [List.lookup]
  have hdel : ((st.delete p).entries.lookup p) = none :=
    lookup_filter_eq_none st.entries p
  have hclose : ((onDidCloseTextDocument st p).entries.lookup p) = none :=
    lookup_filter_eq_none st.entries p
  refine ⟨?_, ?_, ?_, ?_, ?_, ?_⟩
  · show ((((st.endSession).startSession p).entries.lookup p).getD
      InteractionEntry.init).visits = _
    rw [hstart st.endSession]
    rfl
  · show ((((st.endSession).startSession p).entries.lookup p).getD
      InteractionEntry.init).strokes = _
    rw [hstart st.endSession]
    rfl
  · show (((st.delete p).entries.lookup p).getD
      InteractionEntry.init).visits = 0
    rw [hdel]
    rfl
  · show (((st.delete p).entries.lookup p).getD
      InteractionEntry.init).strokes = 0
    rw [hdel]
    rfl
  · show (((onDidCloseTextDocument st p).entries.lookup p).getD
      InteractionEntry.init).visits = 0
    rw [hclose]
    rfl
  · show (((onDidCloseTextDocument st p).entries.lookup p).getD
      InteractionEntry.init).strokes = 0
    rw [hclose]
    rfl

/-- Re-adding an item whose id is already present leaves the registry
unchanged. -/
theorem addContextItem_of_mem {reg : List ContextItem}
    {item : ContextItem}
    (h : reg.any (fun it => it.id == item.id) = true) :
    addContextItem reg item = reg := by
  simp [addContextItem, h]

/-- After an add, an item with the added id is present. -/
theorem addContextItem_mem_id (reg : List ContextItem)
    (item : ContextItem) :
    (addContextItem reg item).any (fun it => it.id == item.id) = true := by
  unfold addContextItem
  by_cases h : reg.any (fun it => it.id == item.id) = true
  · simp [h]
  · rw [Bool.not_eq_true] at h
    simp only [h, Bool.false_eq_true, if_false]
    refine List.any_eq_true.mpr ⟨item, List.mem_append_right _ ?_, ?_⟩
    · exact List.mem_singleton.mpr rfl
    · simp

/-- Adds keyed by id keep the mapped id list duplicate-free. -/
theorem addContextItem_nodup {reg : List ContextItem}
    {item : ContextItem} (h : (reg.map ContextItem.id).Nodup) :
    ((addContextItem reg item).map ContextItem.id).Nodup := by
  unfold addContextItem
  by_cases ha : reg.any (fun it => it.id == item.id) = true
  · simp only [ha, if_true]
    exact h
  · rw [Bool.not_eq_true] at ha
    simp only [ha, Bool.false_eq_true, if_false, List.map_append,
      List.map_cons, List.map_nil]
    rw [List.nodup_append]
    refine ⟨h, List.nodup_singleton _, ?_⟩
    intro x hx hy
    rw [List.mem_singleton.mp hy] at hx
    obtain ⟨it, hit, hid⟩ := List.mem_map.mp hx
    have h2 := List.any_eq_false.mp ha it hit
    rw [hid] at h2
    simp at h2

/-- Duplicate-free ids bound the per-id count by one. -/
theorem count_id_le_one {reg : List ContextItem}
    (h : (reg.map ContextItem.id).Nodup) (z : ContextId) :
    reg.countP (fun it => it.id == z) ≤ 1 := by
  have hmap : (reg.map ContextItem.id).countP (fun i => i == z) =
      reg.countP (fun it => it.id == z) := by
    rw [List.countP_map]
    rfl
  rw [← hmap]
  have : (reg.map ContextItem.id).countP (fun i => i == z) =
      (reg.map ContextItem.id).count z := rfl
  rw [this]
  exact List.nodup_iff_count_le_one.mp h z

/-- C9: a File context item always carries `id = workspace-relative
path` (line 281 of src/src/index.ts), so re-adding the same file is a
no-op and the per-path entry count never exceeds one; a Selection
context item gets a fresh `uuidv4()` id per call (line 300), so two
successive add-selection actions append two distinct entries, even for
identical or overlapping ranges. -/
theorem context_item_identity (reg : List ContextItem) (ctr : Nat)
    (p b sText : String) (sel1 sel2 : SelectionRange)
    (hnd : (reg.map ContextItem.id).Nodup) (hfresh : ctrFresh reg ctr) :
    (addFileToContext p b (addFileToContext p b reg) =
      addFileToContext p b reg) ∧
    (∀ n : Nat, ((addFileToContext p b)^[n] reg).countP
      (fun it => it.id == .filePath p) ≤ 1) ∧
    ((addSelectionToContext false
        (addSelectionToContext false ctr p b sText sel1 reg).2 p b sText
        sel2 (addSelectionToContext false ctr p b sText sel1 reg).1).1 =
      reg ++
        [⟨.uuid ctr, .selection, selectionName b sel1, p, some sText,
          some sel1⟩,
         ⟨.uuid (ctr + 1), .selection, selectionName b sel2, p,
          some sText, some sel2⟩]) ∧
    (ContextId.uuid ctr ≠ ContextId.uuid (ctr + 1)) := by
  refine ⟨?_, ?_, ?_, by simp⟩
  · exact addContextItem_of_mem (addContextItem_mem_id reg _)
  · intro n
    have hnod : ∀ m : Nat,
        (((addFileToContext p b)^[m] reg).map ContextItem.id).Nodup := by
      intro m
      induction m with
      | zero => exact hnd
      | succ k ihk =>
        rw [Function.iterate_succ_apply']
        exact addContextItem_nodup ihk
    exact count_id_le_one (hnod n) _
  · have hany1 : reg.any
        (fun it => it.id == ContextId.uuid ctr) = false := by
      refine List.any_eq_false.mpr ?_
      intro it hit hbe
      rw [beq_iff_eq] at hbe
      exact absurd (hfresh it hit ctr hbe) (Nat.lt_irrefl ctr)
    have hstep1 : (addSelectionToContext false ctr p b sText sel1 reg) =
        (reg ++ [⟨.uuid ctr, .selection, selectionName b sel1, p,
          some sText, some sel1⟩], ctr + 1) := by
      simp [addSelectionToContext, addContextItem, hany1]
    rw [hstep1]
    have hany2 : (reg ++ [(⟨.uuid ctr, .selection, selectionName b sel1,
        p, some sText, some sel1⟩ : ContextItem)]).any
        (fun it => it.id == ContextId.uuid (ctr + 1)) = false := by
      refine List.any_eq_false.mpr ?_
      intro it hit hbe
      rw [beq_iff_eq] at hbe
      rcases List.mem_append.mp hit with hit2 | hit2
      · have := hfresh it hit2 (ctr + 1) hbe
        omega
      · rw [List.mem_singleton.mp hit2] at hbe
        simp at hbe
    simp [addSelectionToContext, addContextItem, hany2]

/-- Witness for C9: from an empty registry, adding the same file three
times leaves at most one entry for that path, and two selection adds
append two distinct entries. -/
theorem context_item_identity_witness :
    ((addFileToContext "p" "b")^[3] []).countP
      (fun it => it.id == .filePath "p") ≤ 1 :=
  (context_item_identity [] 0 "p" "b" "s" ⟨0, 0, 1, 0⟩ ⟨0, 0, 1, 0⟩
    (by decide)
    (by intro item hitem n hn; exact absurd hitem (List.not_mem_nil item))).2.1 3
